import Mathlib

/-!
Verification of the hackernews-companion terminal client.

The definitions below are a shallow embedding of the TypeScript source:

* `Comment`, `FlatComment`, `Item` mirror the interfaces in `src/types.ts`;
* `flattenComments` mirrors `flattenComments` in `src/tui/utils.ts`
  (reproduced in `EVENT_SYSTEM.md`);
* `fetchCommentTree` / `fetchReplies` mirror the recursive comment build in
  `src/hackernews-post.ts`, with the network represented by an explicit
  oracle `Env` and general recursion represented by an explicit fuel
  parameter (running out of fuel models divergence of the JS recursion);
* `getComments`, `clearCommentsCache` mirror the post-level comment cache,
  with the object's mutable field passed as explicit state;
* `getPosts`, `getPostsByUser` mirror `src/hackernews-client.ts`;
* `AppState`, `handlePostInput`, `handleHelpToggle`, `loadPostStart`,
  `loadPostComplete` mirror the state transitions in `src/tui/App.tsx`
  (JavaScript array indices are modelled by `Int`, since the code can
  produce the index `-1`);
* the viewport window computation `windowBounds` mirrors the `useMemo`
  block in `src/tui/components/PostView.tsx`.
-/

/-- `View` mirrors `type View = 'feed' | 'post' | 'help'` in `src/tui/types.ts`. -/
inductive View where
  | feed
  | post
  | help
deriving DecidableEq, Repr

/-- A node of the derived comment tree, mirroring `interface Comment` in
`src/types.ts`.  `time` stores the raw epoch seconds carried by the `Date`. -/
inductive Comment where
  | mk (id : Nat) (author : String) (text : String) (time : Int) (parent : Nat)
      (replies : List Comment) (deleted : Bool) (dead : Bool)

def Comment.id : Comment → Nat
  | .mk i _ _ _ _ _ _ _ => i

def Comment.author : Comment → String
  | .mk _ a _ _ _ _ _ _ => a

def Comment.text : Comment → String
  | .mk _ _ t _ _ _ _ _ => t

def Comment.time : Comment → Int
  | .mk _ _ _ t _ _ _ _ => t

def Comment.parent : Comment → Nat
  | .mk _ _ _ _ p _ _ _ => p

def Comment.replies : Comment → List Comment
  | .mk _ _ _ _ _ r _ _ => r

def Comment.deleted : Comment → Bool
  | .mk _ _ _ _ _ _ d _ => d

def Comment.dead : Comment → Bool
  | .mk _ _ _ _ _ _ _ d => d

theorem Comment.sizeOf_replies_lt (c : Comment) : sizeOf c.replies < sizeOf c := by
  cases c with
  | mk i a t ti p r d dd =>
    simp only [Comment.replies, Comment.mk.sizeOf_spec]
    omega

/-- A projected entry of the flat comment sequence, mirroring
`interface FlatComment extends Comment` in `src/tui/utils.ts`. -/
structure FlatComment where
  id : Nat
  author : String
  text : String
  time : Int
  parent : Nat
  replies : List Comment
  deleted : Bool
  dead : Bool
  depth : Nat
  isCollapsed : Bool

/-- `flattenComments` from `src/tui/utils.ts`: pre-order projection of the
comment trees, skipping the subtrees of collapsed nodes but emitting the
collapsed node itself with `isCollapsed = true` and an emptied `replies`
list (the spread `{ ...comment, depth, isCollapsed, replies: [] }`). -/
def flattenComments (comments : List Comment) (collapsedSet : Finset Nat)
    (depth : Nat) : List FlatComment :=
  match comments with
  | [] => []
  | c :: rest =>
    { id := c.id, author := c.author, text := c.text, time := c.time,
      parent := c.parent, replies := [], deleted := c.deleted, dead := c.dead,
      depth := depth, isCollapsed := decide (c.id ∈ collapsedSet) } ::
    ((if c.id ∈ collapsedSet then []
      else if c.replies.length > 0 then
        flattenComments c.replies collapsedSet (depth + 1)
      else []) ++ flattenComments rest collapsedSet depth)
termination_by sizeOf comments
decreasing_by
  · have := Comment.sizeOf_replies_lt c
    simp only [List.cons.sizeOf_spec]
    omega
  · simp only [List.cons.sizeOf_spec]
    omega

/-- The pre-order flattening of all comments ignoring collapse state: the
local `flattenComments` helper inside `getAllCommentsFlat` in
`src/hackernews-post.ts`. -/
def allNodes (comments : List Comment) : List Comment :=
  match comments with
  | [] => []
  | c :: rest =>
    c :: ((if c.replies.length > 0 then allNodes c.replies else []) ++ allNodes rest)
termination_by sizeOf comments
decreasing_by
  · have := Comment.sizeOf_replies_lt c
    simp only [List.cons.sizeOf_spec]
    omega
  · simp only [List.cons.sizeOf_spec]
    omega

/-- Identifiers of all nodes of a forest, in pre-order. -/
def allIds (comments : List Comment) : List Nat :=
  (allNodes comments).map Comment.id

/-- Identifiers emitted by the flattening, computed directly on the tree:
a node's id is emitted, and its children are traversed only when the node
is not in the collapse set.  (Specification function used to reason about
`flattenComments`.) -/
def visibleIds (collapsedSet : Finset Nat) (comments : List Comment) : List Nat :=
  match comments with
  | [] => []
  | c :: rest =>
    c.id :: ((if c.id ∈ collapsedSet then []
              else visibleIds collapsedSet c.replies) ++ visibleIds collapsedSet rest)
termination_by sizeOf comments
decreasing_by
  · have := Comment.sizeOf_replies_lt c
    simp only [List.cons.sizeOf_spec]
    omega
  · simp only [List.cons.sizeOf_spec]
    omega

/-- Identifiers of the occurrences that lie strictly below an occurrence
whose id is in the collapse set (the "descendants of collapsed nodes"). -/
def collapsedDescIds (collapsedSet : Finset Nat) (comments : List Comment) : List Nat :=
  match comments with
  | [] => []
  | c :: rest =>
    (if c.id ∈ collapsedSet then allIds c.replies
     else collapsedDescIds collapsedSet c.replies) ++ collapsedDescIds collapsedSet rest
termination_by sizeOf comments
decreasing_by
  · have := Comment.sizeOf_replies_lt c
    simp only [List.cons.sizeOf_spec]
    omega
  · simp only [List.cons.sizeOf_spec]
    omega

/-- Structural induction over a forest of comments: to prove `P` of every
list of comment trees it suffices to handle `[]` and `c :: rest` given `P`
for `c.replies` and for `rest`. -/
theorem forestInduction {P : List Comment → Prop} (h0 : P [])
    (h1 : ∀ c rest, P c.replies → P rest → P (c :: rest)) :
    ∀ comments, P comments
  | [] => h0
  | c :: rest =>
    h1 c rest (forestInduction h0 h1 c.replies) (forestInduction h0 h1 rest)
termination_by comments => sizeOf comments
decreasing_by
  · have := Comment.sizeOf_replies_lt c
    simp only [List.cons.sizeOf_spec]
    omega
  · simp only [List.cons.sizeOf_spec]
    omega

theorem allIds_nil : allIds [] = [] := by
  simp [allIds, allNodes]

theorem allIds_cons (c : Comment) (rest : List Comment) :
    allIds (c :: rest) = c.id :: (allIds c.replies ++ allIds rest) := by
  simp only [allIds, allNodes]
  by_cases h : c.replies.length > 0
  · simp [h]
  · have hnil : c.replies = [] := List.length_eq_zero.mp (by omega)
    simp [h, hnil, allNodes]

theorem visibleIds_nil (C : Finset Nat) : visibleIds C [] = [] := by
  simp [visibleIds]

theorem visibleIds_cons (C : Finset Nat) (c : Comment) (rest : List Comment) :
    visibleIds C (c :: rest) =
      c.id :: ((if c.id ∈ C then [] else visibleIds C c.replies) ++ visibleIds C rest) := by
  simp [visibleIds]

theorem collapsedDescIds_nil (C : Finset Nat) : collapsedDescIds C [] = [] := by
  simp [collapsedDescIds]

theorem collapsedDescIds_cons (C : Finset Nat) (c : Comment) (rest : List Comment) :
    collapsedDescIds C (c :: rest) =
      (if c.id ∈ C then allIds c.replies else collapsedDescIds C c.replies) ++
        collapsedDescIds C rest := by
  simp [collapsedDescIds]

/-- The ids of the flattened projection are exactly the `visibleIds` of the
forest; the starting depth is irrelevant to which nodes are emitted. -/
theorem flattenComments_map_id (T : List Comment) (C : Finset Nat) :
    ∀ d, (flattenComments T C d).map FlatComment.id = visibleIds C T := by
  induction T using forestInduction with
  | h0 => intro d; simp [flattenComments, visibleIds]
  | h1 c rest ih1 ih2 =>
    intro d
    rw [flattenComments, visibleIds_cons]
    simp only [List.map_cons, List.map_append]
    by_cases hc : c.id ∈ C
    · simp [hc, ih2]
    · by_cases hr : c.replies.length > 0
      · simp [hc, hr, ih1, ih2]
      · have hnil : c.replies = [] := List.length_eq_zero.mp (by omega)
        simp [hc, hr, hnil, ih2, visibleIds_nil]

/-- Every emitted entry carries `isCollapsed` exactly when its id is in the
collapse set. -/
theorem flattenComments_isCollapsed (T : List Comment) (C : Finset Nat) :
    ∀ d, ∀ f ∈ flattenComments T C d, f.isCollapsed = decide (f.id ∈ C) := by
  induction T using forestInduction with
  | h0 => intro d f hf; simp [flattenComments] at hf
  | h1 c rest ih1 ih2 =>
    intro d f hf
    rw [flattenComments] at hf
    rcases List.mem_cons.mp hf with heq | hmem
    · subst heq; simp
    · rcases List.mem_append.mp hmem with hl | hr
      · by_cases hc : c.id ∈ C
        · simp [hc] at hl
        · by_cases hlen : c.replies.length > 0
          · simp only [if_neg hc, if_pos hlen] at hl
            exact ih1 (d + 1) f hl
          · simp [hc, hlen] at hl
      · exact ih2 d f hr

theorem visibleIds_sublist (C : Finset Nat) (T : List Comment) :
    List.Sublist (visibleIds C T) (allIds T) := by
  induction T using forestInduction with
  | h0 => simp [visibleIds_nil, allIds_nil]
  | h1 c rest ih1 ih2 =>
    rw [visibleIds_cons, allIds_cons]
    refine List.Sublist.cons₂ _ (List.Sublist.append ?_ ih2)
    by_cases hc : c.id ∈ C
    · simp [hc]
    · simpa [hc] using ih1

theorem collapsedDescIds_sublist (C : Finset Nat) (T : List Comment) :
    List.Sublist (collapsedDescIds C T) (allIds T) := by
  induction T using forestInduction with
  | h0 => simp [collapsedDescIds_nil, allIds_nil]
  | h1 c rest ih1 ih2 =>
    rw [collapsedDescIds_cons, allIds_cons]
    refine List.Sublist.cons _ (List.Sublist.append ?_ ih2)
    by_cases hc : c.id ∈ C
    · simp [hc]
    · simpa [hc] using ih1

/-- Decomposition of the no-duplicate-ids hypothesis at a cons cell. -/
theorem nodup_allIds_parts {c : Comment} {rest : List Comment}
    (h : (allIds (c :: rest)).Nodup) :
    c.id ∉ allIds c.replies ∧ c.id ∉ allIds rest ∧
      (allIds c.replies).Nodup ∧ (allIds rest).Nodup ∧
      ∀ x ∈ allIds c.replies, x ∉ allIds rest := by
  rw [allIds_cons, List.nodup_cons, List.nodup_append] at h
  refine ⟨fun hx => h.1 (List.mem_append.mpr (Or.inl hx)),
          fun hx => h.1 (List.mem_append.mpr (Or.inr hx)),
          h.2.1, h.2.2.1, fun x hx hx' => h.2.2.2 hx hx'⟩

/-- In a forest with pairwise-distinct ids, no id that lies strictly below a
collapsed occurrence is emitted by the projection. -/
theorem not_visible_of_collapsedDesc (T : List Comment) :
    (allIds T).Nodup → ∀ (C : Finset Nat) (i : Nat),
      i ∈ collapsedDescIds C T → i ∉ visibleIds C T := by
  induction T using forestInduction with
  | h0 => intro _ C i hi; rw [collapsedDescIds_nil] at hi; exact absurd hi (List.not_mem_nil i)
  | h1 c rest ih1 ih2 =>
    intro h C i hi hvis
    obtain ⟨hn1, hn2, hn3, hn4, hn5⟩ := nodup_allIds_parts h
    rw [collapsedDescIds_cons] at hi
    rw [visibleIds_cons] at hvis
    rcases List.mem_append.mp hi with hiL | hiR
    · have hiA : i ∈ allIds c.replies := by
        by_cases hc : c.id ∈ C
        · simpa [hc] using hiL
        · exact (collapsedDescIds_sublist C c.replies).subset (by simpa [hc] using hiL)
      rcases List.mem_cons.mp hvis with hveq | hvmem
      · exact hn1 (hveq ▸ hiA)
      · rcases List.mem_append.mp hvmem with hvl | hvr
        · by_cases hc : c.id ∈ C
          · simp [hc] at hvl
          · simp only [if_neg hc] at hvl
            exact ih1 hn3 C i (by simpa [hc] using hiL) hvl
        · exact hn5 i hiA ((visibleIds_sublist C rest).subset hvr)
    · have hiR' : i ∈ allIds rest := (collapsedDescIds_sublist C rest).subset hiR
      rcases List.mem_cons.mp hvis with hveq | hvmem
      · exact hn2 (hveq ▸ hiR')
      · rcases List.mem_append.mp hvmem with hvl | hvr
        · have hiA : i ∈ allIds c.replies := by
            by_cases hc : c.id ∈ C
            · simp [hc] at hvl
            · exact (visibleIds_sublist C c.replies).subset (by simpa [hc] using hvl)
          exact hn5 i hiA hiR'
        · exact ih2 hn4 C i hiR hvr

/-- In a forest with pairwise-distinct ids, every occurrence that is not
strictly below a collapsed occurrence is emitted exactly once. -/
theorem count_visibleIds (T : List Comment) :
    (allIds T).Nodup → ∀ (C : Finset Nat) (i : Nat),
      i ∈ allIds T → i ∉ collapsedDescIds C T → (visibleIds C T).count i = 1 := by
  induction T using forestInduction with
  | h0 => intro _ C i hi; rw [allIds_nil] at hi; exact absurd hi (List.not_mem_nil i)
  | h1 c rest ih1 ih2 =>
    intro h C i hi hnd
    obtain ⟨hn1, hn2, hn3, hn4, hn5⟩ := nodup_allIds_parts h
    rw [allIds_cons] at hi
    rw [collapsedDescIds_cons] at hnd
    rw [visibleIds_cons, List.count_cons, List.count_append]
    rcases List.mem_cons.mp hi with heq | hmem
    · have hmid : ((if c.id ∈ C then [] else visibleIds C c.replies).count i) = 0 := by
        apply List.count_eq_zero_of_not_mem
        intro hx
        by_cases hc : c.id ∈ C
        · simp [hc] at hx
        · exact hn1 (heq ▸ (visibleIds_sublist C c.replies).subset (by simpa [hc] using hx))
      have hvr : (visibleIds C rest).count i = 0 := by
        apply List.count_eq_zero_of_not_mem
        intro hx
        exact hn2 (heq ▸ (visibleIds_sublist C rest).subset hx)
      subst heq
      simp [hmid, hvr]
    · rcases List.mem_append.mp hmem with hiA | hiR
      · have hne : i ≠ c.id := fun he => hn1 (he ▸ hiA)
        have hc : c.id ∉ C := by
          intro hc
          exact hnd (List.mem_append.mpr (Or.inl (by simpa [hc] using hiA)))
        have hndr : i ∉ collapsedDescIds C c.replies := fun hx =>
          hnd (List.mem_append.mpr (Or.inl (by simpa [hc] using hx)))
        have hmid : ((if c.id ∈ C then [] else visibleIds C c.replies).count i) = 1 := by
          simpa [hc] using ih1 hn3 C i hiA hndr
        have hvr : (visibleIds C rest).count i = 0 := by
          apply List.count_eq_zero_of_not_mem
          intro hx
          exact hn5 i hiA ((visibleIds_sublist C rest).subset hx)
        simp [hmid, hvr, Ne.symm hne]
      · have hne : i ≠ c.id := fun he => hn2 (he ▸ hiR)
        have hiA : i ∉ allIds c.replies := fun hx => hn5 i hx hiR
        have hndr : i ∉ collapsedDescIds C rest := fun hx =>
          hnd (List.mem_append.mpr (Or.inr hx))
        have hmid : ((if c.id ∈ C then [] else visibleIds C c.replies).count i) = 0 := by
          apply List.count_eq_zero_of_not_mem
          intro hx
          apply hiA
          by_cases hc : c.id ∈ C
          · simp [hc] at hx
          · exact (visibleIds_sublist C c.replies).subset (by simpa [hc] using hx)
        have hvr : (visibleIds C rest).count i = 1 := ih2 hn4 C i hiR hndr
        simp [hmid, hvr, Ne.symm hne]

/-- Claim C1 (amended): for every forest `T` with pairwise-distinct node
identifiers and every collapse set `C`, the flattened projection contains no
id lying strictly below a collapsed occurrence; every id occurring in `T`
that does not lie strictly below a collapsed occurrence — in particular
every member of `C` occurring in `T` with no collapsed proper ancestor —
appears exactly once; and every emitted entry is marked `isCollapsed`
exactly when its id is in `C`.  (A collapsed node nested strictly below
another collapsed node does not appear at all; see the counterexample.) -/
theorem c1_flatten_collapse (T : List Comment) (C : Finset Nat)
    (h : (allIds T).Nodup) :
    (∀ i ∈ collapsedDescIds C T, i ∉ (flattenComments T C 0).map FlatComment.id) ∧
    (∀ i ∈ C, i ∈ allIds T → i ∉ collapsedDescIds C T →
      ((flattenComments T C 0).map FlatComment.id).count i = 1) ∧
    (∀ f ∈ flattenComments T C 0, f.isCollapsed = decide (f.id ∈ C)) := by
  refine ⟨?_, ?_, ?_⟩
  · intro i hi
    rw [flattenComments_map_id]
    exact not_visible_of_collapsedDesc T h C i hi
  · intro i _ hiT hnd
    rw [flattenComments_map_id]
    exact count_visibleIds T h C i hiT hnd
  · exact flattenComments_isCollapsed T C 0

/-- A small concrete comment forest: node 10 with a single reply 20. -/
def sampleReply : Comment := .mk 20 "carol" "reply" 0 10 [] false false

/-- Root of the sample forest. -/
def sampleRoot : Comment := .mk 10 "bob" "hello" 0 1 [sampleReply] false false

/-- The sample forest `[10 [20]]`. -/
def sampleForest : List Comment := [sampleRoot]

theorem c1_flatten_collapse_witness :
    (allIds sampleForest).Nodup ∧
    ((∀ i ∈ collapsedDescIds {10} sampleForest,
        i ∉ (flattenComments sampleForest {10} 0).map FlatComment.id) ∧
      (∀ i ∈ ({10} : Finset Nat), i ∈ allIds sampleForest →
        i ∉ collapsedDescIds {10} sampleForest →
        ((flattenComments sampleForest {10} 0).map FlatComment.id).count i = 1) ∧
      (∀ f ∈ flattenComments sampleForest {10} 0,
        f.isCollapsed = decide (f.id ∈ ({10} : Finset Nat)))) := by
  have hnd : (allIds sampleForest).Nodup := by
    simp [allIds, allNodes, sampleForest, sampleRoot, sampleReply, Comment.id, Comment.replies]
  exact ⟨hnd, c1_flatten_collapse sampleForest {10} hnd⟩

/-- Forest with a collapsed node (id 2) nested below another collapsed node
(id 1). -/
def nestedForest : List Comment :=
  [.mk 1 "alice" "root" 0 0 [.mk 2 "bob" "child" 0 1 [] false false] false false]

/-- Claim C1, as stated, is false: with `T = [1 [2]]` and `C = {1, 2}`, the
id 2 is in `C` and occurs in `T`, yet the flattened projection does not
contain it at all (it is a descendant of the collapsed node 1), rather than
exactly once. -/
theorem c1_counterexample :
    2 ∈ ({1, 2} : Finset Nat) ∧ 2 ∈ allIds nestedForest ∧
    ((flattenComments nestedForest ({1, 2} : Finset Nat) 0).map FlatComment.id).count 2 = 0 := by
  refine ⟨by decide, ?_, ?_⟩
  · simp [allIds, allNodes, nestedForest, Comment.id, Comment.replies]
  · simp [flattenComments, nestedForest, Comment.id, Comment.replies]

/-- `visibleIds` only inspects membership of ids that occur in the forest. -/
theorem visibleIds_congr (T : List Comment) :
    ∀ (C C' : Finset Nat), (∀ j ∈ allIds T, (j ∈ C ↔ j ∈ C')) →
      visibleIds C T = visibleIds C' T := by
  induction T using forestInduction with
  | h0 => intro C C' _; rw [visibleIds_nil, visibleIds_nil]
  | h1 c rest ih1 ih2 =>
    intro C C' hagree
    have hidmem : c.id ∈ allIds (c :: rest) := by
      rw [allIds_cons]; exact List.mem_cons_self _ _
    have hrep : ∀ j ∈ allIds c.replies, (j ∈ C ↔ j ∈ C') := fun j hj =>
      hagree j (by rw [allIds_cons]; exact List.mem_cons_of_mem _ (List.mem_append.mpr (Or.inl hj)))
    have hrest : ∀ j ∈ allIds rest, (j ∈ C ↔ j ∈ C') := fun j hj =>
      hagree j (by rw [allIds_cons]; exact List.mem_cons_of_mem _ (List.mem_append.mpr (Or.inr hj)))
    rw [visibleIds_cons, visibleIds_cons]
    by_cases hc : c.id ∈ C
    · have hc' : c.id ∈ C' := (hagree c.id hidmem).mp hc
      rw [if_pos hc, if_pos hc', ih2 C C' hrest]
    · have hc' : c.id ∉ C' := fun hx => hc ((hagree c.id hidmem).mpr hx)
      rw [if_neg hc, if_neg hc', ih1 C C' hrep, ih2 C C' hrest]

/-- If the collapse set changes only at the id sitting at position `p` of the
current projection, the projection is unchanged up to and including
position `p`.  (In particular its length stays `> p`.) -/
theorem visibleIds_take_update (T : List Comment) :
    (allIds T).Nodup → ∀ (C C' : Finset Nat) (i p : Nat),
      (∀ j ∈ allIds T, j ≠ i → (j ∈ C ↔ j ∈ C')) →
      (visibleIds C T)[p]? = some i →
      (visibleIds C' T).take (p + 1) = (visibleIds C T).take (p + 1) := by
  induction T using forestInduction with
  | h0 => intro _ C C' i p _ hget; rw [visibleIds_nil] at hget; simp at hget
  | h1 c rest ih1 ih2 =>
    intro h C C' i p hagree hget
    obtain ⟨hn1, hn2, hn3, hn4, hn5⟩ := nodup_allIds_parts h
    have hidmem : c.id ∈ allIds (c :: rest) := by
      rw [allIds_cons]; exact List.mem_cons_self _ _
    have hrep : ∀ j ∈ allIds c.replies, j ≠ i → (j ∈ C ↔ j ∈ C') := fun j hj =>
      hagree j (by rw [allIds_cons]; exact List.mem_cons_of_mem _ (List.mem_append.mpr (Or.inl hj)))
    have hrest : ∀ j ∈ allIds rest, j ≠ i → (j ∈ C ↔ j ∈ C') := fun j hj =>
      hagree j (by rw [allIds_cons]; exact List.mem_cons_of_mem _ (List.mem_append.mpr (Or.inr hj)))
    rw [visibleIds_cons] at hget
    rw [visibleIds_cons, visibleIds_cons]
    match p with
    | 0 =>
      rw [List.take_succ_cons, List.take_succ_cons, List.take_zero, List.take_zero]
    | p + 1 =>
      rw [List.getElem?_cons_succ] at hget
      have hiX : i ∈ (if c.id ∈ C then [] else visibleIds C c.replies) ++ visibleIds C rest :=
        List.getElem?_mem hget
      have hiAR : i ∈ allIds c.replies ∨ i ∈ allIds rest := by
        rcases List.mem_append.mp hiX with hl | hr
        · left
          by_cases hc : c.id ∈ C
          · rw [if_pos hc] at hl; simp at hl
          · rw [if_neg hc] at hl; exact (visibleIds_sublist C c.replies).subset hl
        · right; exact (visibleIds_sublist C rest).subset hr
      have hne : c.id ≠ i := by
        rcases hiAR with hl | hr
        · exact fun he => hn1 (he ▸ hl)
        · exact fun he => hn2 (he ▸ hr)
      have hcc : c.id ∈ C ↔ c.id ∈ C' := hagree c.id hidmem hne
      rw [List.take_succ_cons, List.take_succ_cons]
      by_cases hc : c.id ∈ C
      · have hc' : c.id ∈ C' := hcc.mp hc
        rw [if_pos hc] at hget ⊢
        rw [if_pos hc']
        rw [List.nil_append] at hget ⊢
        rw [List.nil_append]
        rw [ih2 hn4 C C' i p hrest hget]
      · have hc' : c.id ∉ C' := fun hx => hc (hcc.mpr hx)
        rw [if_neg hc] at hget ⊢
        rw [if_neg hc']
        by_cases hp : p < (visibleIds C c.replies).length
        · have hgm : (visibleIds C c.replies)[p]? = some i := by
            rw [List.getElem?_append, if_pos hp] at hget
            exact hget
          have htk : (visibleIds C' c.replies).take (p + 1) =
              (visibleIds C c.replies).take (p + 1) := ih1 hn3 C C' i p hrep hgm
          have hlen : p + 1 ≤ (visibleIds C c.replies).length := hp
          have hlen' : p + 1 ≤ (visibleIds C' c.replies).length := by
            have h1 : ((visibleIds C' c.replies).take (p + 1)).length = p + 1 := by
              rw [htk, List.length_take]
              omega
            rw [List.length_take] at h1
            omega
          rw [List.take_append_eq_append_take, List.take_append_eq_append_take,
            Nat.sub_eq_zero_of_le hlen, Nat.sub_eq_zero_of_le hlen',
            List.take_zero, List.take_zero, List.append_nil, List.append_nil, htk]
        · have hple : (visibleIds C c.replies).length ≤ p := Nat.not_lt.mp hp
          have hgm : (visibleIds C rest)[p - (visibleIds C c.replies).length]? = some i := by
            rw [List.getElem?_append, if_neg hp] at hget
            exact hget
          have hiR : i ∈ allIds rest :=
            (visibleIds_sublist C rest).subset (List.getElem?_mem hgm)
          have hmid : visibleIds C' c.replies = visibleIds C c.replies := by
            apply (visibleIds_congr c.replies C C' ?_).symm
            intro j hj
            exact hrep j hj (fun he => hn5 j hj (he ▸ hiR))
          have htr : (visibleIds C' rest).take (p - (visibleIds C c.replies).length + 1) =
              (visibleIds C rest).take (p - (visibleIds C c.replies).length + 1) :=
            ih2 hn4 C C' i _ hrest hgm
          rw [List.take_append_eq_append_take, List.take_append_eq_append_take, hmid]
          have harith : p + 1 - (visibleIds C c.replies).length =
              p - (visibleIds C c.replies).length + 1 := by omega
          rw [harith]
          rw [htr]

/-- A raw item of the flat API graph, mirroring `interface HackerNewsItem`
in `src/types.ts` (every field except `id` is optional there; `id` is also
treated as possibly missing, as `item.id ?? 0` in the source shows).
The JSON field named `by` is called `by_handle` here (`by` is reserved). -/
structure Item where
  id : Option Nat := none
  deleted : Option Bool := none
  type : Option String := none
  by_handle : Option String := none
  time : Option Int := none
  text : Option String := none
  dead : Option Bool := none
  parent : Option Nat := none
  kids : Option (List Nat) := none
  url : Option String := none
  score : Option Int := none
  title : Option String := none
  descendants : Option Nat := none

/-- Outcome of one `fetch` of `/item/{id}.json`: a successful response with
an item, a missing/null/deleted-style absence (`!response.ok` or a `null`
body), or a raised transport/parse failure. -/
inductive FetchOutcome where
  | ok (item : Item)
  | absent
  | fail

/-- The network, as an oracle from item id to fetch outcome. -/
def Env : Type := Nat → FetchOutcome

/-- The comment object literal built at the end of `fetchCommentTree`
(`id: item.id ?? 0`, `by ?? 'unknown'`, `text ?? ''`, `time ?? 0`,
`parent ?? 0`, `deleted ?? false`, `dead ?? false`). -/
def mkComment (item : Item) (replies : List Comment) : Comment :=
  .mk (item.id.getD 0) (item.by_handle.getD "unknown") (item.text.getD "")
    (item.time.getD 0) (item.parent.getD 0) replies (item.deleted.getD false)
    (item.dead.getD false)

mutual

/-- `fetchCommentTree` from `src/hackernews-post.ts`.  `fuel` bounds the
recursion depth of the JS function, which recurses one level deeper per
`kids` edge with no cycle guard: `.error ()` means the bound was hit, so
`∀ fuel, _ = .error ()` models divergence of the source recursion.
A transport failure is caught (`catch` → `return null`), an absent,
deleted or dead item yields `null`, both modelled as `.ok none`. -/
def fetchCommentTree (env : Env) : Nat → Nat → Except Unit (Option Comment)
  | 0, _ => .error ()
  | fuel + 1, commentId =>
    match env commentId with
    | .fail => .ok none
    | .absent => .ok none
    | .ok item =>
      if item.deleted.getD false || item.dead.getD false then .ok none
      else
        match fetchReplies env fuel (item.kids.getD []) with
        | .error e => .error e
        | .ok replies => .ok (some (mkComment item replies))
termination_by fuel _ => (fuel, 0)

/-- The `for (const kidId of item.kids)` loop of `fetchCommentTree` (and,
with the top-level `commentIds`, the identical loop in `getComments`):
resolve each id in order and push the non-null results, in order. -/
def fetchReplies (env : Env) : Nat → List Nat → Except Unit (List Comment)
  | _, [] => .ok []
  | fuel, kidId :: rest =>
    match fetchCommentTree env fuel kidId with
    | .error e => .error e
    | .ok none => fetchReplies env fuel rest
    | .ok (some c) =>
      match fetchReplies env fuel rest with
      | .error e => .error e
      | .ok cs => .ok (c :: cs)
termination_by fuel kids => (fuel, kids.length + 1)

end

/-- The mutable per-post fields touched by the comment cache:
`commentIds` and `commentsCache` of `HackerNewsPost`. -/
structure PostCacheState where
  commentIds : List Nat
  commentsCache : Option (List Comment)

/-- `getComments` from `src/hackernews-post.ts`: return the cache when it is
set; otherwise run the fetch loop over `commentIds` and store the result.
The mutable `this.commentsCache` is passed as explicit state. -/
def getComments (env : Env) (fuel : Nat) (s : PostCacheState) :
    Except Unit (List Comment × PostCacheState) :=
  match s.commentsCache with
  | some cached => .ok (cached, s)
  | none =>
    match fetchReplies env fuel s.commentIds with
    | .error e => .error e
    | .ok comments => .ok (comments, { s with commentsCache := some comments })

/-- `clearCommentsCache` from `src/hackernews-post.ts`. -/
def clearCommentsCache (s : PostCacheState) : PostCacheState :=
  { s with commentsCache := none }

/-- The immutable data of a `HackerNewsPost` as set by its constructor. -/
structure PostRec where
  id : Nat
  title : String
  url : Option String
  author : String
  score : Int
  time : Int
  commentCount : Nat
  text : Option String
  type : String
  commentIds : List Nat

/-- The `HackerNewsPost` constructor: throws `'Item must have an id'` when
`item.id === undefined`, otherwise fills every field with its `??` default. -/
def mkHackerNewsPost (item : Item) : Except String PostRec :=
  match item.id with
  | none => .error "Item must have an id"
  | some i =>
    .ok { id := i, title := item.title.getD "", url := item.url,
          author := item.by_handle.getD "unknown", score := item.score.getD 0,
          time := item.time.getD 0, commentCount := item.descendants.getD 0,
          text := item.text, type := item.type.getD "story",
          commentIds := item.kids.getD [] }

/-- `getPost` from `src/hackernews-client.ts`: `null` on a failed response,
a `null` body, a deleted or dead item, or any thrown error (the `catch`
also swallows the constructor's own error). -/
def getPost (env : Env) (postId : Nat) : Option PostRec :=
  match env postId with
  | .fail => none
  | .absent => none
  | .ok item =>
    if item.deleted.getD false || item.dead.getD false then none
    else (mkHackerNewsPost item).toOption

/-- `getPosts` from `src/hackernews-client.ts`.  The feed listing fetch
(`fetchStoryIds`) is the oracle `storyIdsResult`; the per-item fetches go
through `env`.  The limit is validated before either oracle is consulted. -/
def getPosts (env : Env) (storyIdsResult : Except String (List Nat))
    (limit : Int) : Except String (List PostRec) :=
  if limit ≤ 0 then .error "Limit must be greater than 0"
  else if 500 < limit then .error "Limit cannot exceed 500"
  else
    match storyIdsResult with
    | .error e => .error e
    | .ok storyIds => .ok ((storyIds.take limit.toNat).filterMap (getPost env))

/-- The user record produced by `getUser`. -/
structure UserRec where
  id : String
  created : Int
  karma : Int
  about : Option String
  submitted : List Nat

/-- The `for (const id of postIds)` loop of `getPostsByUser`: keep only
stories/jobs/polls and stop once `posts.length >= limit`. -/
def userPostsLoop (env : Env) (limit : Nat) :
    List Nat → List PostRec → List PostRec
  | [], acc => acc
  | postId :: rest, acc =>
    match getPost env postId with
    | none => userPostsLoop env limit rest acc
    | some p =>
      if p.type = "story" || p.type = "job" || p.type = "poll" then
        if limit ≤ (acc ++ [p]).length then acc ++ [p]
        else userPostsLoop env limit rest (acc ++ [p])
      else userPostsLoop env limit rest acc

/-- `getPostsByUser` from `src/hackernews-client.ts`.  The user fetch is the
oracle `userResult` (`none` models both a missing user and a swallowed
fetch error inside `getUser`).  The limit is validated before it. -/
def getPostsByUser (env : Env) (userResult : Option UserRec)
    (username : String) (limit : Int) : Except String (List PostRec) :=
  if limit ≤ 0 then .error "Limit must be greater than 0"
  else if 500 < limit then .error "Limit cannot exceed 500"
  else
    match userResult with
    | none => .error ("User \"" ++ username ++ "\" not found")
    | some user =>
      .ok (userPostsLoop env limit.toNat (user.submitted.take limit.toNat) [])

/-- The TUI state, mirroring `interface AppState` in `src/tui/types.ts`.
Posts are represented by their identifiers (the transitions modelled here
never look inside a post object); selection indices are `Int` because the
JS arithmetic can produce `-1`. -/
structure AppState where
  view : View
  feedType : String
  posts : List Nat
  selectedPostIndex : Int
  currentPost : Option Nat
  comments : List Comment
  flatComments : List FlatComment
  selectedCommentIndex : Int
  collapsedComments : Finset Nat
  loading : Bool
  error : Option String
  statusMessage : Option String

/-- The `useState` initialiser in `src/tui/App.tsx`. -/
def initialState : AppState :=
  { view := .feed, feedType := "top", posts := [], selectedPostIndex := 0,
    currentPost := none, comments := [], flatComments := [],
    selectedCommentIndex := 0, collapsedComments := ∅, loading := false,
    error := none, statusMessage := none }

/-- JavaScript array indexing `arr[i]`: `undefined` when `i` is negative or
past the end. -/
def listGetInt (l : List α) (i : Int) : Option α :=
  if 0 ≤ i then l[i.toNat]? else none

/-- The collapse-set update inside the space-key branch of
`handlePostInput`: copy the set, then `delete` the id if present,
`add` it otherwise. -/
def toggleCollapse (commentId : Nat) (collapsed : Finset Nat) : Finset Nat :=
  if commentId ∈ collapsed then collapsed.erase commentId
  else insert commentId collapsed

/-- The key events dispatched to `handlePostInput` in `src/tui/App.tsx`
(`j`/down, `k`/up, `g`, `G`, space, `o`, `c`, escape/backspace). -/
inductive PostKey where
  | down
  | up
  | jumpTop
  | jumpBottom
  | collapseKey
  | openArticle
  | openComment
  | back
deriving DecidableEq

/-- `handlePostInput` from `src/tui/App.tsx`.  The browser-opening branches
(`o`, `c`) only spawn external side effects and leave the state unchanged. -/
def handlePostInput (key : PostKey) (s : AppState) : AppState :=
  match key with
  | .down =>
    { s with
      selectedCommentIndex :=
        min (s.selectedCommentIndex + 1) ((s.flatComments.length : Int) - 1) }
  | .up =>
    { s with selectedCommentIndex := max (s.selectedCommentIndex - 1) 0 }
  | .jumpTop => { s with selectedCommentIndex := 0 }
  | .jumpBottom =>
    { s with selectedCommentIndex := (s.flatComments.length : Int) - 1 }
  | .collapseKey =>
    match listGetInt s.flatComments s.selectedCommentIndex with
    | none => s
    | some selectedComment =>
      let newCollapsed := toggleCollapse selectedComment.id s.collapsedComments
      { s with collapsedComments := newCollapsed,
               flatComments := flattenComments s.comments newCollapsed 0 }
  | .openArticle => s
  | .openComment => s
  | .back =>
    { s with view := .feed, currentPost := none, comments := [],
             flatComments := [] }

/-- The global `h`/`?` branch of the input handler:
`view = view === 'help' ? 'feed' : 'help'`. -/
def handleHelpToggle (s : AppState) : AppState :=
  { s with view := if s.view = .help then .feed else .help }

/-- `handleHelpInput` (escape while the help overlay is open). -/
def handleHelpEscape (s : AppState) : AppState :=
  { s with view := .feed }

/-- The synchronous first half of `loadPostDetails`: enter the post view in
a loading sub-state before any comment arrives. -/
def loadPostStart (postId : Nat) (s : AppState) : AppState :=
  { s with view := .post, currentPost := some postId, loading := true,
           comments := [], flatComments := [], selectedCommentIndex := 0,
           collapsedComments := ∅ }

/-- The continuation of `loadPostDetails` that runs when `getComments`
resolves: it unconditionally stores the comments, their flattening under an
empty collapse set, and clears `loading` — there is no check that the post
is still the displayed one. -/
def loadPostComplete (comments : List Comment) (s : AppState) : AppState :=
  { s with comments := comments,
           flatComments := flattenComments comments ∅ 0, loading := false }

/-- The visible-window computation of `src/tui/components/PostView.tsx`
(the `useMemo` block): centre the selection, clamp to the ends. -/
def windowBounds (flatComments : List FlatComment) (selectedCommentIndex : Int)
    (maxVisibleComments : Int) : Int × Int :=
  if maxVisibleComments ≤ 0 then (0, 0)
  else
    let half := maxVisibleComments / 2
    let start := max 0 (selectedCommentIndex - half)
    let stop := min (flatComments.length : Int) (start + maxVisibleComments)
    if stop - start < maxVisibleComments then (max 0 (stop - maxVisibleComments), stop)
    else (start, stop)

/-- A placeholder flat entry (contents irrelevant: the window computation
only reads the list's length). -/
def dummyFlat : FlatComment :=
  { id := 0, author := "", text := "", time := 0, parent := 0, replies := [],
    deleted := false, dead := false, depth := 0, isCollapsed := false }

/-- Claim C3: for `0 ≤ i < len` and `cap > 0` the window `(start, stop)`
satisfies `0 ≤ start ≤ i < stop ≤ len` and `stop - start = min cap len`,
with `start` the ideal centre `i - cap / 2` clamped to `[0, len - cap]`;
`cap ≤ 0` yields the empty window; and the `[0..99]`, `i = 50`, `cap = 10`
scenario yields `(45, 55)`. -/
theorem c3_window_bounds :
    (∀ (flat : List FlatComment) (i cap : Int),
      0 ≤ i → i < (flat.length : Int) → 0 < cap →
      0 ≤ (windowBounds flat i cap).1 ∧
      (windowBounds flat i cap).1 ≤ i ∧
      i < (windowBounds flat i cap).2 ∧
      (windowBounds flat i cap).2 ≤ (flat.length : Int) ∧
      (windowBounds flat i cap).2 - (windowBounds flat i cap).1 =
        min cap (flat.length : Int) ∧
      (windowBounds flat i cap).1 =
        max 0 (min (i - cap / 2) ((flat.length : Int) - cap))) ∧
    (∀ (flat : List FlatComment) (i cap : Int), cap ≤ 0 →
      windowBounds flat i cap = (0, 0)) ∧
    windowBounds (List.replicate 100 dummyFlat) 50 10 = (45, 55) := by
  refine ⟨?_, ?_, ?_⟩
  · intro flat i cap h0 hi hcap
    have hhalf : 0 ≤ cap / 2 ∧ cap / 2 ≤ cap - 1 := by omega
    simp only [windowBounds, if_neg (by omega : ¬cap ≤ 0)]
    set L : Int := (flat.length : Int) with hL
    split <;> refine ⟨by omega, by omega, by omega, by omega, by omega, by omega⟩
  · intro flat i cap h
    simp only [windowBounds, if_pos h]
  · have hlen : (List.replicate 100 dummyFlat).length = 100 := List.length_replicate 100 dummyFlat
    simp only [windowBounds, hlen]
    norm_num

theorem c3_window_bounds_witness :
    0 ≤ (windowBounds (List.replicate 100 dummyFlat) 50 10).1 ∧
    (windowBounds (List.replicate 100 dummyFlat) 50 10).1 ≤ 50 ∧
    50 < (windowBounds (List.replicate 100 dummyFlat) 50 10).2 ∧
    (windowBounds (List.replicate 100 dummyFlat) 50 10).2 ≤
      ((List.replicate 100 dummyFlat).length : Int) ∧
    (windowBounds (List.replicate 100 dummyFlat) 50 10).2 -
        (windowBounds (List.replicate 100 dummyFlat) 50 10).1 =
      min 10 ((List.replicate 100 dummyFlat).length : Int) ∧
    (windowBounds (List.replicate 100 dummyFlat) 50 10).1 =
      max 0 (min (50 - 10 / 2) (((List.replicate 100 dummyFlat).length : Int) - 10)) :=
  c3_window_bounds.1 (List.replicate 100 dummyFlat) 50 10 (by norm_num)
    (by simp [List.length_replicate]) (by norm_num)

/-- Claim C9: one toggle flips exactly the toggled identifier's membership
and two toggles of the same identifier restore the original collapse set. -/
theorem c9_toggle_involution :
    ∀ (collapsed : Finset Nat) (i : Nat),
      (i ∈ toggleCollapse i collapsed ↔ i ∉ collapsed) ∧
      (∀ j, j ≠ i → (j ∈ toggleCollapse i collapsed ↔ j ∈ collapsed)) ∧
      toggleCollapse i (toggleCollapse i collapsed) = collapsed := by
  intro collapsed i
  by_cases h : i ∈ collapsed
  · refine ⟨?_, ?_, ?_⟩
    · simp [toggleCollapse, h]
    · intro j hj
      simp [toggleCollapse, h, Finset.mem_erase, hj]
    · simp only [toggleCollapse, if_pos h]
      rw [if_neg (by simp), Finset.insert_erase h]
  · refine ⟨?_, ?_, ?_⟩
    · simp [toggleCollapse, h]
    · intro j hj
      simp [toggleCollapse, h, Finset.mem_insert, hj]
    · simp only [toggleCollapse, if_neg h]
      rw [if_pos (Finset.mem_insert_self i collapsed), Finset.erase_insert h]

theorem c9_toggle_involution_witness :
    (2 ∈ toggleCollapse 2 ({1, 2} : Finset Nat) ↔ 2 ∉ ({1, 2} : Finset Nat)) ∧
    (1 ∈ toggleCollapse 2 ({1, 2} : Finset Nat) ↔ 1 ∈ ({1, 2} : Finset Nat)) ∧
    toggleCollapse 2 (toggleCollapse 2 ({1, 2} : Finset Nat)) = ({1, 2} : Finset Nat) := by
  have h := c9_toggle_involution ({1, 2} : Finset Nat) 2
  exact ⟨h.1, h.2.1 1 (by decide), h.2.2⟩

/-- Claim C10: both feed-fetching operations reject `limit ≤ 0` and
`limit > 500` with the exact error strings, for every network oracle —
i.e. before any fetch can be consulted. -/
theorem c10_limit_validation :
    (∀ (env : Env) (storyIdsResult : Except String (List Nat)) (limit : Int),
      limit ≤ 0 →
      getPosts env storyIdsResult limit = .error "Limit must be greater than 0") ∧
    (∀ (env : Env) (storyIdsResult : Except String (List Nat)) (limit : Int),
      500 < limit →
      getPosts env storyIdsResult limit = .error "Limit cannot exceed 500") ∧
    (∀ (env : Env) (userResult : Option UserRec) (username : String) (limit : Int),
      limit ≤ 0 →
      getPostsByUser env userResult username limit =
        .error "Limit must be greater than 0") ∧
    (∀ (env : Env) (userResult : Option UserRec) (username : String) (limit : Int),
      500 < limit →
      getPostsByUser env userResult username limit =
        .error "Limit cannot exceed 500") := by
  refine ⟨?_, ?_, ?_, ?_⟩
  · intro env idsRes limit h
    simp only [getPosts, if_pos h]
  · intro env idsRes limit h
    simp only [getPosts, if_neg (by omega : ¬limit ≤ 0), if_pos h]
  · intro env userRes username limit h
    simp only [getPostsByUser, if_pos h]
  · intro env userRes username limit h
    simp only [getPostsByUser, if_neg (by omega : ¬limit ≤ 0), if_pos h]

theorem c10_limit_validation_witness :
    getPosts (fun _ => .absent) (.ok []) 0 = .error "Limit must be greater than 0" ∧
    getPosts (fun _ => .absent) (.ok []) 501 = .error "Limit cannot exceed 500" ∧
    getPostsByUser (fun _ => .absent) none "alice" (-3) =
      .error "Limit must be greater than 0" ∧
    getPostsByUser (fun _ => .absent) none "alice" 501 =
      .error "Limit cannot exceed 500" :=
  ⟨c10_limit_validation.1 _ _ 0 (by norm_num),
   c10_limit_validation.2.1 _ _ 501 (by norm_num),
   c10_limit_validation.2.2.1 _ none "alice" (-3) (by norm_num),
   c10_limit_validation.2.2.2 _ none "alice" 501 (by norm_num)⟩

/-- Claim C6: a second `getComments` call with no intervening cache clear
returns the very collection stored by the first call, touching neither the
state nor the network (the second call's oracle and fuel are arbitrary);
`clearCommentsCache` empties the cache, after which `getComments` rebuilds
by running the fetch loop from scratch. -/
theorem c6_cache_stability :
    (∀ (env₁ : Env) (fuel₁ : Nat) (env₂ : Env) (fuel₂ : Nat)
        (s : PostCacheState) (cs : List Comment) (s' : PostCacheState),
      getComments env₁ fuel₁ s = .ok (cs, s') →
      getComments env₂ fuel₂ s' = .ok (cs, s')) ∧
    (∀ s : PostCacheState, (clearCommentsCache s).commentsCache = none) ∧
    (∀ (env : Env) (fuel : Nat) (s : PostCacheState),
      getComments env fuel (clearCommentsCache s) =
        match fetchReplies env fuel s.commentIds with
        | .error e => .error e
        | .ok comments => .ok (comments, ⟨s.commentIds, some comments⟩)) := by
  refine ⟨?_, ?_, ?_⟩
  · intro env₁ fuel₁ env₂ fuel₂ s cs s' h
    unfold getComments at h ⊢
    cases hc : s.commentsCache with
    | some cached =>
      rw [hc] at h
      simp only [Except.ok.injEq, Prod.mk.injEq] at h
      obtain ⟨h1, h2⟩ := h
      rw [← h2, hc, h1]
    | none =>
      rw [hc] at h
      cases hf : fetchReplies env₁ fuel₁ s.commentIds with
      | error e => rw [hf] at h; exact absurd h (by simp)
      | ok comments =>
        rw [hf] at h
        simp only [Except.ok.injEq, Prod.mk.injEq] at h
        obtain ⟨h1, h2⟩ := h
        rw [← h2, h1]
  · intro s
    rfl
  · intro env fuel s
    rfl

theorem c6_cache_stability_witness :
    getComments (fun _ => .fail) 0 ⟨[], some []⟩ = .ok ([], ⟨[], some []⟩) := by
  have h := c6_cache_stability.1 (fun _ => .absent) 1 (fun _ => .fail) 0
    ⟨[], none⟩ [] ⟨[], some []⟩
  apply h
  simp [getComments, fetchReplies]

/-- A rank function witnessing that `kids` references always point to
strictly smaller ranks — i.e. that the reachable item graph is acyclic. -/
def RankBound (env : Env) (rank : Nat → Nat) : Prop :=
  ∀ commentId item, env commentId = .ok item →
    ∀ kid ∈ item.kids.getD [], rank kid < rank commentId

/-- If every id in the list resolves without hitting the fuel bound, the
reply loop does not hit it either. -/
theorem fetchReplies_ne_error (env : Env) (fuel : Nat) :
    ∀ kids : List Nat,
      (∀ kidId ∈ kids, fetchCommentTree env fuel kidId ≠ .error ()) →
      fetchReplies env fuel kids ≠ .error () := by
  intro kids
  induction kids with
  | nil => intro _ h; rw [fetchReplies] at h; exact Except.noConfusion h
  | cons k rest ih =>
    intro hall h
    rw [fetchReplies] at h
    cases hk : fetchCommentTree env fuel k with
    | error e =>
      exact hall k (List.mem_cons_self k rest) (by rw [hk])
    | ok r =>
      rw [hk] at h
      cases r with
      | none => exact ih (fun j hj => hall j (List.mem_cons_of_mem _ hj)) h
      | some c =>
        cases hr : fetchReplies env fuel rest with
        | error e =>
          exact ih (fun j hj => hall j (List.mem_cons_of_mem _ hj)) hr
        | ok cs => rw [hr] at h; exact Except.noConfusion h

/-- Under a rank bound, the recursion succeeds once the fuel exceeds the
starting rank: the modelled JS recursion terminates on acyclic graphs. -/
theorem fetchCommentTree_ne_error (env : Env) (rank : Nat → Nat)
    (hrb : RankBound env rank) :
    ∀ (fuel commentId : Nat), rank commentId < fuel →
      fetchCommentTree env fuel commentId ≠ .error () := by
  intro fuel
  induction fuel with
  | zero => intro commentId h; omega
  | succ n ih =>
    intro commentId hrk h
    rw [fetchCommentTree] at h
    cases he : env commentId with
    | fail => rw [he] at h; exact Except.noConfusion h
    | absent => rw [he] at h; exact Except.noConfusion h
    | ok item =>
      rw [he] at h
      dsimp only at h
      by_cases hd : item.deleted.getD false || item.dead.getD false
      · rw [if_pos hd] at h; exact Except.noConfusion h
      · rw [if_neg hd] at h
        have hkids : ∀ kidId ∈ item.kids.getD [], fetchCommentTree env n kidId ≠ .error () :=
          fun kidId hkid => ih kidId (by have := hrb commentId item he kidId hkid; omega)
        cases hr : fetchReplies env n (item.kids.getD []) with
        | error e =>
          cases e
          exact fetchReplies_ne_error env n (item.kids.getD []) hkids hr
        | ok replies => rw [hr] at h; exact Except.noConfusion h

/-- An item whose `kids` list references itself. -/
def cyclicItem : Item := { id := some 10, kids := some [10] }

/-- A graph in which item 10 is its own child. -/
def cyclicEnv : Env := fun commentId =>
  if commentId = 10 then .ok cyclicItem else .absent

/-- On the self-referential graph the recursion hits every fuel bound:
the source recursion, which has no bound, never returns. -/
theorem cyclicEnv_no_fuel_suffices :
    ∀ fuel, fetchCommentTree cyclicEnv fuel 10 = .error () := by
  intro fuel
  induction fuel with
  | zero => rw [fetchCommentTree]
  | succ n ih => simp [fetchCommentTree, fetchReplies, cyclicEnv, cyclicItem, ih]

/-- Claim C4 (amended): the recursive build terminates whenever the item
graph has a rank function strictly decreasing over `kids` edges (in
particular on every acyclic graph), but the source has no path-based cycle
guard: on the self-referential graph `10 → kids [10]` the recursion runs
out of every fuel bound, i.e. the unbounded JS recursion never returns. -/
theorem c4_build_termination (env : Env) (rank : Nat → Nat)
    (hrb : RankBound env rank) (commentId fuel : Nat)
    (hfuel : rank commentId < fuel) :
    fetchCommentTree env fuel commentId ≠ .error () ∧
    (∀ n, fetchCommentTree cyclicEnv n 10 = .error ()) :=
  ⟨fetchCommentTree_ne_error env rank hrb fuel commentId hfuel,
   cyclicEnv_no_fuel_suffices⟩

/-- Item 10 with the single child 20. -/
def chainItem10 : Item := { id := some 10, kids := some [20] }

/-- Leaf item 20. -/
def chainItem20 : Item := { id := some 20 }

/-- The two-node acyclic graph `10 → 20`. -/
def chainEnv : Env := fun commentId =>
  if commentId = 10 then .ok chainItem10
  else if commentId = 20 then .ok chainItem20
  else .absent

/-- The obvious rank for `chainEnv`. -/
def chainRank : Nat → Nat := fun commentId => if commentId = 10 then 1 else 0

theorem chainEnv_rankBound : RankBound chainEnv chainRank := by
  intro commentId item h kid hkid
  unfold chainEnv at h
  by_cases h10 : commentId = 10
  · rw [if_pos h10] at h
    cases h
    simp [chainItem10] at hkid
    simp [chainRank, hkid, h10]
  · rw [if_neg h10] at h
    by_cases h20 : commentId = 20
    · rw [if_pos h20] at h
      cases h
      simp [chainItem20] at hkid
    · rw [if_neg h20] at h
      exact FetchOutcome.noConfusion h

theorem c4_build_termination_witness :
    fetchCommentTree chainEnv 2 10 ≠ .error () ∧
    (∀ n, fetchCommentTree cyclicEnv n 10 = .error ()) :=
  c4_build_termination chainEnv chainRank chainEnv_rankBound 10 2
    (by simp [chainRank])

/-- Claim C4, as stated, is false: on the self-referential graph
`10 → kids [10]` there is no recursion-depth bound within which the build
returns — the unguarded source recursion does not terminate on this input,
so the build does not "produce a finite result for every input item
graph". -/
theorem c4_counterexample :
    ¬ ∃ fuel, fetchCommentTree cyclicEnv fuel 10 ≠ .error () := by
  intro hex
  obtain ⟨fuel, hne⟩ := hex
  exact hne (cyclicEnv_no_fuel_suffices fuel)

/-- The value a single child id contributes: the comment when it resolves,
nothing when it is absent, deleted, dead, or its fetch failed. -/
def resolvedComment (env : Env) (fuel : Nat) (kidId : Nat) : Option Comment :=
  match fetchCommentTree env fuel kidId with
  | .error _ => none
  | .ok r => r

/-- Item 10 of the C5 scenario: one child, 20. -/
def scnItem10 : Item := { id := some 10, kids := some [20] }

/-- Item 11 of the C5 scenario: deleted. -/
def scnItem11 : Item := { id := some 11, deleted := some true }

/-- Item 20 of the C5 scenario: a leaf. -/
def scnItem20 : Item := { id := some 20 }

/-- The C5 scenario graph with item 11 deleted. -/
def scnEnv : Env := fun commentId =>
  if commentId = 10 then .ok scnItem10
  else if commentId = 11 then .ok scnItem11
  else if commentId = 20 then .ok scnItem20
  else .absent

/-- The C5 scenario graph with the fetch of item 11 raising instead. -/
def scnEnvFail : Env := fun commentId =>
  if commentId = 10 then .ok scnItem10
  else if commentId = 11 then .fail
  else if commentId = 20 then .ok scnItem20
  else .absent

/-- The tree the scenario build produces: node 10 with single reply 20. -/
def scnTree : Comment :=
  .mk 10 "unknown" "" 0 0 [.mk 20 "unknown" "" 0 0 [] false false] false false

/-- Claim C5: the reply loop resolves the ids depth-first in the given
order and its result is exactly the in-order list of successful
resolutions — children that are absent, deleted, dead, or whose fetch
fails are skipped with no placeholder and without aborting the build.
Concretely, `kids = [10, 11]` with 11 deleted (or its fetch failing) and
`10 → kids [20]` yields the single tree `10 [20]`, whose exhaustive
flattening has 2 nodes. -/
theorem c5_skip_and_order :
    (∀ (env : Env) (fuel : Nat) (kids : List Nat),
      (∀ kidId ∈ kids, (fetchCommentTree env fuel kidId).isOk = true) →
      fetchReplies env fuel kids = .ok (kids.filterMap (resolvedComment env fuel))) ∧
    getComments scnEnv 3 ⟨[10, 11], none⟩ =
      .ok ([scnTree], ⟨[10, 11], some [scnTree]⟩) ∧
    getComments scnEnvFail 3 ⟨[10, 11], none⟩ =
      .ok ([scnTree], ⟨[10, 11], some [scnTree]⟩) ∧
    (allNodes [scnTree]).length = 2 := by
  refine ⟨?_, ?_, ?_, ?_⟩
  · intro env fuel kids
    induction kids with
    | nil => intro _; rw [fetchReplies]; rfl
    | cons k rest ih =>
      intro hall
      have hrest := ih (fun j hj => hall j (List.mem_cons_of_mem _ hj))
      have hk := hall k (List.mem_cons_self k rest)
      rw [fetchReplies]
      cases hres : fetchCommentTree env fuel k with
      | error e => rw [hres] at hk; exact absurd hk (by simp [Except.isOk, Except.toBool])
      | ok r =>
        cases r with
        | none =>
          rw [hrest]
          simp [List.filterMap_cons, resolvedComment, hres]
        | some c =>
          rw [hrest]
          simp [List.filterMap_cons, resolvedComment, hres]
  · simp [getComments, fetchReplies, fetchCommentTree, scnEnv, scnItem10,
      scnItem11, scnItem20, mkComment, scnTree]
  · simp [getComments, fetchReplies, fetchCommentTree, scnEnvFail, scnItem10,
      scnItem11, scnItem20, mkComment, scnTree]
  · simp [allNodes, scnTree, Comment.replies]

theorem c5_skip_and_order_witness :
    fetchReplies scnEnv 3 [10, 11] =
      .ok ([10, 11].filterMap (resolvedComment scnEnv 3)) := by
  apply c5_skip_and_order.1
  intro kidId hk
  rcases List.mem_cons.mp hk with h | h
  · subst h
    simp [fetchCommentTree, fetchReplies, scnEnv, scnItem10, scnItem11,
      scnItem20, Except.isOk, Except.toBool]
  · rcases List.mem_cons.mp h with h' | h'
    · subst h'
      simp [fetchCommentTree, scnEnv, scnItem10, scnItem11, Except.isOk, Except.toBool]
    · simp at h'

/-- Claim C7 (amended): the completion of `loadPostDetails` performs no
identity check at all — it unconditionally overwrites `comments`,
`flatComments` and `loading`, whatever view is active; the fields that the
feed display reads (`view`, `posts`, `selectedPostIndex`, `feedType`,
`currentPost`) are left unchanged, so the Feed stays displayable, but the
late result is not detected or dropped. -/
theorem c7_late_completion_applied :
    ∀ (s : AppState) (comments : List Comment),
      (loadPostComplete comments s).comments = comments ∧
      (loadPostComplete comments s).flatComments = flattenComments comments ∅ 0 ∧
      (loadPostComplete comments s).loading = false ∧
      (loadPostComplete comments s).view = s.view ∧
      (loadPostComplete comments s).posts = s.posts ∧
      (loadPostComplete comments s).selectedPostIndex = s.selectedPostIndex ∧
      (loadPostComplete comments s).feedType = s.feedType ∧
      (loadPostComplete comments s).currentPost = s.currentPost := by
  intro s comments
  exact ⟨rfl, rfl, rfl, rfl, rfl, rfl, rfl, rfl⟩

/-- The comment list of a late-arriving resolution. -/
def lateComments : List Comment := [.mk 5 "eve" "late" 0 0 [] false false]

/-- Claim C7, as stated, is false: open a post from the initial feed state,
navigate back to the feed before the resolution completes, and let the
late result arrive — the state of the now-active feed is mutated (its
`comments` field changes), rather than the result being detected and
dropped. -/
theorem c7_counterexample :
    (handlePostInput .back (loadPostStart 1 initialState)).view = View.feed ∧
    loadPostComplete lateComments (handlePostInput .back (loadPostStart 1 initialState)) ≠
      handlePostInput .back (loadPostStart 1 initialState) := by
  refine ⟨rfl, ?_⟩
  intro h
  have hcm := congrArg AppState.comments h
  simp only [loadPostComplete] at hcm
  simp [lateComments, handlePostInput, loadPostStart, initialState] at hcm

/-- Everything in the app state except the active view. -/
def viewSubState (s : AppState) :=
  (s.feedType, s.posts, s.selectedPostIndex, s.currentPost, s.comments,
   s.flatComments, s.selectedCommentIndex, s.collapsedComments, s.loading,
   s.error, s.statusMessage)

/-- Claim C8 (amended): the help overlay is reachable from both the feed
and the post view via the toggle key, leaving all non-view state intact;
closing it always returns to the *feed* view: from the feed the round trip
is the identity, but from the post view the round trip lands in the feed
view (with the post sub-state still populated), not back in the post
view. -/
theorem c8_help_toggle :
    ∀ s : AppState,
      ((s.view = .feed ∨ s.view = .post) →
        (handleHelpToggle s).view = .help ∧
        viewSubState (handleHelpToggle s) = viewSubState s) ∧
      (s.view = .feed → handleHelpToggle (handleHelpToggle s) = s) ∧
      (s.view = .post →
        (handleHelpToggle (handleHelpToggle s)).view = .feed ∧
        viewSubState (handleHelpToggle (handleHelpToggle s)) = viewSubState s) := by
  intro s
  refine ⟨?_, ?_, ?_⟩
  · intro hv
    rcases hv with hv | hv <;>
      simp [handleHelpToggle, viewSubState, hv]
  · intro hv
    cases s
    simp only [handleHelpToggle] at *
    simp_all
  · intro hv
    simp [handleHelpToggle, viewSubState, hv]

/-- A populated post-detail state. -/
def samplePostState : AppState :=
  { initialState with
    view := .post
    currentPost := some 1
    comments := sampleForest
    flatComments := flattenComments sampleForest ∅ 0 }

theorem c8_help_toggle_witness :
    ((handleHelpToggle samplePostState).view = .help ∧
      viewSubState (handleHelpToggle samplePostState) = viewSubState samplePostState) ∧
    ((handleHelpToggle (handleHelpToggle samplePostState)).view = .feed ∧
      viewSubState (handleHelpToggle (handleHelpToggle samplePostState)) =
        viewSubState samplePostState) :=
  ⟨(c8_help_toggle samplePostState).1 (Or.inr rfl),
   (c8_help_toggle samplePostState).2.2 rfl⟩

/-- Claim C8, as stated, is false: toggling help open from the post view
and closing it again does not return to the post view — the view field
ends at `feed`. -/
theorem c8_counterexample :
    samplePostState.view = View.post ∧
    handleHelpToggle (handleHelpToggle samplePostState) ≠ samplePostState := by
  refine ⟨rfl, ?_⟩
  intro h
  have hv := congrArg AppState.view h
  simp [handleHelpToggle, samplePostState, initialState] at hv

theorem toggleCollapse_mem_iff_of_ne {i j : Nat} (C : Finset Nat) (h : j ≠ i) :
    j ∈ toggleCollapse i C ↔ j ∈ C := by
  unfold toggleCollapse
  split <;> simp [Finset.mem_erase, Finset.mem_insert, h]

theorem flattenComments_length (T : List Comment) (C : Finset Nat) (d : Nat) :
    (flattenComments T C d).length = (visibleIds C T).length := by
  rw [← flattenComments_map_id T C d, List.length_map]

/-- Collapsing (or expanding) the node sitting at position `p` of the
current projection never removes positions `≤ p`: the node itself stays
put, because only its descendants — which all come after it in pre-order —
are affected. -/
theorem toggle_keeps_position (T : List Comment) (C : Finset Nat) (p : Nat)
    (x : FlatComment) (hnd : (allIds T).Nodup)
    (hget : (flattenComments T C 0)[p]? = some x) :
    p < (flattenComments T (toggleCollapse x.id C) 0).length := by
  have hvid : (visibleIds C T)[p]? = some x.id := by
    rw [← flattenComments_map_id T C 0, List.getElem?_map, hget]
    rfl
  have hagree : ∀ j ∈ allIds T, j ≠ x.id →
      (j ∈ C ↔ j ∈ toggleCollapse x.id C) := by
    intro j _ hj
    exact (toggleCollapse_mem_iff_of_ne C hj).symm
  have htk := visibleIds_take_update T hnd C (toggleCollapse x.id C) x.id p hagree hvid
  have hplen : p < (visibleIds C T).length := (List.getElem?_eq_some_iff.mp hvid).1
  have h1 : ((visibleIds C T).take (p + 1)).length = p + 1 := by
    rw [List.length_take]
    omega
  have h2 : ((visibleIds (toggleCollapse x.id C) T).take (p + 1)).length = p + 1 := by
    rw [htk, h1]
  rw [List.length_take] at h2
  rw [flattenComments_length]
  omega

/-- Claim C2 (amended): starting from a post-view state whose flat list is
the flattening of its comments (with pairwise-distinct ids) and whose
selection is non-negative: when the flat list is non-empty and the
selection in range, every input except return-to-feed keeps the selection
in range — for the collapse toggle the selection index is left untouched
(the code performs no re-clamping), and the new flat list provably still
contains that position, so no re-clamping is ever needed after a toggle;
when the flat list is empty with selection 0, down-move and jump-bottom
set the selection to `-1` (not 0), up-move and jump-top keep it at 0, and
the toggle is a no-op. -/
theorem c2_selection_clamping (s : AppState) (key : PostKey)
    (hflat : s.flatComments = flattenComments s.comments s.collapsedComments 0)
    (hnd : (allIds s.comments).Nodup)
    (h0 : 0 ≤ s.selectedCommentIndex) :
    (0 < s.flatComments.length →
      s.selectedCommentIndex < (s.flatComments.length : Int) →
      key ≠ .back →
      0 ≤ (handlePostInput key s).selectedCommentIndex ∧
      (handlePostInput key s).selectedCommentIndex <
        ((handlePostInput key s).flatComments.length : Int)) ∧
    (key = .collapseKey →
      (handlePostInput key s).selectedCommentIndex = s.selectedCommentIndex) ∧
    (s.flatComments = [] → s.selectedCommentIndex = 0 →
      ((key = .down ∨ key = .jumpBottom) →
        (handlePostInput key s).selectedCommentIndex = -1) ∧
      ((key = .up ∨ key = .jumpTop) →
        (handlePostInput key s).selectedCommentIndex = 0) ∧
      (key = .collapseKey → handlePostInput key s = s)) := by
  refine ⟨?_, ?_, ?_⟩
  · intro hlen hin hnb
    cases key with
    | down => dsimp only [handlePostInput]; constructor <;> omega
    | up => dsimp only [handlePostInput]; constructor <;> omega
    | jumpTop => dsimp only [handlePostInput]; constructor <;> omega
    | jumpBottom => dsimp only [handlePostInput]; constructor <;> omega
    | openArticle => exact ⟨h0, hin⟩
    | openComment => exact ⟨h0, hin⟩
    | back => exact absurd rfl hnb
    | collapseKey =>
      have hlt : s.selectedCommentIndex.toNat < s.flatComments.length := by omega
      have hx : listGetInt s.flatComments s.selectedCommentIndex =
          some s.flatComments[s.selectedCommentIndex.toNat] := by
        unfold listGetInt
        rw [if_pos h0]
        exact List.getElem?_eq_getElem hlt
      simp only [handlePostInput, hx]
      refine ⟨h0, ?_⟩
      have hget : getElem? (flattenComments s.comments s.collapsedComments 0)
          s.selectedCommentIndex.toNat =
          some s.flatComments[s.selectedCommentIndex.toNat] := by
        rw [← hflat]
        exact List.getElem?_eq_getElem hlt
      have hkeep := toggle_keeps_position s.comments s.collapsedComments
        s.selectedCommentIndex.toNat s.flatComments[s.selectedCommentIndex.toNat] hnd hget
      omega
  · intro hk
    subst hk
    simp only [handlePostInput]
    cases hx : listGetInt s.flatComments s.selectedCommentIndex <;> rfl
  · intro hempty hidx
    refine ⟨?_, ?_, ?_⟩
    · intro hk
      rcases hk with hk | hk <;> subst hk <;>
        simp [handlePostInput, hempty, hidx]
    · intro hk
      rcases hk with hk | hk <;> subst hk <;>
        simp [handlePostInput, hempty, hidx]
    · intro hk
      subst hk
      simp [handlePostInput, listGetInt, hempty, hidx]

theorem c2_selection_clamping_witness :
    0 ≤ (handlePostInput .down samplePostState).selectedCommentIndex ∧
    (handlePostInput .down samplePostState).selectedCommentIndex <
      ((handlePostInput .down samplePostState).flatComments.length : Int) := by
  refine (c2_selection_clamping samplePostState .down rfl ?_ ?_).1 ?_ ?_ (by simp)
  · simp [samplePostState, initialState, allIds, allNodes, sampleForest,
      sampleRoot, sampleReply, Comment.id, Comment.replies]
  · decide
  · simp [samplePostState, initialState, flattenComments, sampleForest,
      sampleRoot, sampleReply, Comment.id, Comment.replies]
  · simp [samplePostState, initialState, flattenComments, sampleForest,
      sampleRoot, sampleReply, Comment.id, Comment.replies]

/-- A post-view state with no comments loaded. -/
def emptyPostState : AppState := { initialState with view := .post }

/-- Claim C2, as stated, is false: with an empty flattened sequence and
selection 0, a down-move sets the selection to `-1` (the JS
`Math.min(0 + 1, 0 - 1)`), not 0 — movement is not a no-op there. -/
theorem c2_counterexample :
    emptyPostState.flatComments = [] ∧
    emptyPostState.selectedCommentIndex = 0 ∧
    (handlePostInput .down emptyPostState).selectedCommentIndex = -1 := by
  refine ⟨rfl, rfl, ?_⟩
  simp [handlePostInput, emptyPostState, initialState]
